import Mathlib

/-!
# Verification of the legion ECS core against its specification

The repository ships only the integration tests (`tests/query_api.rs`) and the
serialization example (`examples/serde.rs`); the engine crate itself is not in
the source tree.  The data model and the operations below are therefore a
shallow embedding modelled from the specification (spec.md §3–§4), checked for
consistency against the behaviour the shipped tests assert.

Conventions of the embedding:
* component and tag type identifiers are `Nat` (the process-local `TypeId`);
* component and tag values are `List Int` (an `f32` tuple is embedded as a
  tuple of scaled integers: only equality and constant assignment occur in the
  code, never arithmetic, so the carrier is irrelevant);
* a chunk stores its rows as `(entity, association list)` pairs — a
  row-oriented transposition of the spec's struct-of-arrays columns, which is
  observationally identical for the functional claims;
* entities are bare `Nat` ids allocated by a counter (generations are never
  exercised by the claims under verification).
-/

namespace Legion

abbrev ComponentTypeId := Nat
abbrev TagTypeId := Nat
abbrev Entity := Nat
abbrev Val := List Int

/-- A storage row: an entity id together with its component values, keyed by
component type id. -/
abbrev Row := Entity × List (ComponentTypeId × Val)

/-- Modelled from the spec: a chunk (spec §3 "Chunk", §4.2) holding densely
packed rows of a single archetype together with a per-component-type change
version (`version: u64` per column).  Capacity bookkeeping is not modelled:
no claim under verification depends on the chunk capacity policy. -/
structure Chunk where
  rows : List Row
  versions : List (ComponentTypeId × Nat)
  deriving Repr, DecidableEq

/-- Modelled from the spec: a chunk set (spec §3 "Chunk Set") — the chunks of
one archetype sharing one canonical tag value per tag type. -/
structure ChunkSet where
  tags : List (TagTypeId × Val)
  chunks : List Chunk
  deriving Repr, DecidableEq

/-- Modelled from the spec: an archetype (spec §3 "Archetype Description",
§4.3) — an unordered set of component types and tag types owning one chunk
set per distinct tag-value combination. -/
structure Archetype where
  componentTypes : List ComponentTypeId
  tagTypes : List TagTypeId
  chunkSets : List ChunkSet
  deriving Repr, DecidableEq

/-- Modelled from the spec: the world (spec §4.3) — the archetypes, the
monotonically increasing `world_tick` and the entity-id allocator. -/
structure World where
  archetypes : List Archetype
  worldTick : Nat
  nextEntity : Nat
  deriving Repr, DecidableEq

def World.empty : World := ⟨[], 0, 0⟩

/-- Unordered equality of two type-id lists (spec §3: archetype descriptions
are unordered sets; two archetypes are equal iff both sets are equal). -/
def sameSet (a b : List Nat) : Bool :=
  a.all (· ∈ b) && b.all (· ∈ a)

/-- Unordered equality of two tag-value association lists (spec §3: a chunk
set groups the entities whose tag values agree componentwise). -/
def sameTags (a b : List (TagTypeId × Val)) : Bool :=
  a.all (· ∈ b) && b.all (· ∈ a)

/-- The version stamped on a chunk's column for component type `t` (0 when the
archetype has no such column). -/
def Chunk.versionOf (c : Chunk) (t : ComponentTypeId) : Nat :=
  ((c.versions.lookup t).getD 0)

/-- Replace the `i`-th element of a list by `f` of it (identity out of
range). -/
def modifyAt {α : Type} : List α → Nat → (α → α) → List α
  | [], _, _ => []
  | x :: xs, 0, f => f x :: xs
  | x :: xs, n + 1, f => x :: modifyAt xs n f

/-- Modelled from the spec: `World.insert` (spec §4.3) — `tags` is the tuple
of tag values, `ctypes` the component types of the (homogeneous) element
tuples, `vals` one positional value tuple per entity.  Selects or creates the
archetype from the type sets, selects or creates the chunk set by tag-value
equality, appends the rows to the last chunk, stamps the touched columns with
the (freshly advanced) world tick (spec §4.2: initial writes stamp the version
to the current tick), and returns the new ids in insertion order. -/
def World.insert (w : World) (tags : List (TagTypeId × Val))
    (ctypes : List ComponentTypeId) (vals : List (List Val)) :
    World × List Entity :=
  let tick := w.worldTick + 1
  let newRows : List Row :=
    ((List.range vals.length).zip vals).map
      (fun p => (w.nextEntity + p.1, ctypes.zip p.2))
  let stamp : List (ComponentTypeId × Nat) := ctypes.map (fun t => (t, tick))
  let addToChunkSet : ChunkSet → ChunkSet := fun s =>
    match s.chunks.getLast? with
    | none => { s with chunks := [⟨newRows, stamp⟩] }
    | some c => { s with chunks := s.chunks.dropLast ++ [⟨c.rows ++ newRows, stamp⟩] }
  let addToArch : Archetype → Archetype := fun a =>
    match a.chunkSets.findIdx? (fun s => sameTags s.tags tags) with
    | some i => { a with chunkSets := modifyAt a.chunkSets i addToChunkSet }
    | none => { a with chunkSets := a.chunkSets ++ [⟨tags, [⟨newRows, stamp⟩]⟩] }
  let archs :=
    match w.archetypes.findIdx?
        (fun a => sameSet a.componentTypes ctypes
          && sameSet a.tagTypes (tags.map Prod.fst)) with
    | some i => modifyAt w.archetypes i addToArch
    | none => w.archetypes ++ [⟨ctypes, tags.map Prod.fst, [⟨tags, [⟨newRows, stamp⟩]⟩]⟩]
  (⟨archs, tick, w.nextEntity + vals.length⟩,
    (List.range vals.length).map (w.nextEntity + ·))

/-! ## The query system (spec §4.4), modelled from the spec. -/

/-- Modelled from the spec: an atomic view declarator (spec §4.4 view table).
The `Entity` view is implicit: every iteration item carries the entity id. -/
inductive VItem : Type
  | read (t : ComponentTypeId)
  | write (t : ComponentTypeId)
  | tryRead (t : ComponentTypeId)
  | tryWrite (t : ComponentTypeId)
  | tagged (t : TagTypeId)
  deriving Repr, DecidableEq

/-- A view: a tuple of atomic view declarators. -/
abbrev View := List VItem

/-- The component types a view takes exclusive (write) access to. -/
def View.writeTypes (v : View) : List ComponentTypeId :=
  v.filterMap (fun i => match i with
    | .write t => some t
    | .tryWrite t => some t
    | _ => none)

/-- The component types a view requires to be present (mandatory views impose
an implicit `component<T>()` archetype filter; `Try*` and `Tagged` impose
none — spec §4.4 step 1). -/
def View.mandatoryComponents (v : View) : List ComponentTypeId :=
  v.filterMap (fun i => match i with
    | .read t => some t
    | .write t => some t
    | _ => none)

/-- The tag types a view's `Tagged<T>` declarators borrow.  The archetype must
carry the tag for the borrow to exist. -/
def View.taggedTypes (v : View) : List TagTypeId :=
  v.filterMap (fun i => match i with
    | .tagged t => some t
    | _ => none)

/-- Whether the view contains any `Write`/`TryWrite` declarator. -/
def View.hasWrite (v : View) : Bool :=
  !v.writeTypes.isEmpty

/-- Modelled from the spec: a query — a view paired with an optional
`changed<T>` filter carrying its mutable per-query state
(`last_seen : u64`, initialized to 0) (spec §4.4). -/
structure Query where
  view : View
  changedF : Option (ComponentTypeId × Nat)
  deriving Repr, DecidableEq

/-- A query as built by `View::query().filter(changed::<T>())`: `last_seen`
starts at 0. -/
def Query.changed (v : View) (t : ComponentTypeId) : Query := ⟨v, some (t, 0)⟩

/-- A query with no dynamic filter. -/
def Query.plain (v : View) : Query := ⟨v, none⟩

/-- Archetype filter pass (spec §4.4 step 1): the static part of the filter —
type presence for the mandatory views, tag-type presence for `Tagged`. -/
def archMatches (q : Query) (a : Archetype) : Bool :=
  q.view.mandatoryComponents.all (· ∈ a.componentTypes)
    && q.view.taggedTypes.all (· ∈ a.tagTypes)

/-- Chunk filter pass (spec §4.4 step 3): `changed<T>` is satisfied iff the
chunk's column version for `T` exceeds the filter's `last_seen`. -/
def chunkMatches (q : Query) (c : Chunk) : Bool :=
  match q.changedF with
  | none => true
  | some (t, lastSeen) => lastSeen < c.versionOf t

/-- One fetched element of an iteration item: a (copied) component value, an
optional component value (`Try*` views), or a chunk-set tag value. -/
inductive Fetch : Type
  | val (v : Val)
  | opt (v : Option Val)
  | tag (v : Val)
  deriving Repr, DecidableEq

/-- What one row yields under a view, given the canonical tag values of the
row's chunk set (spec §4.4 step 4). -/
def fetchRow (v : View) (tags : List (TagTypeId × Val)) (r : Row) : List Fetch :=
  v.filterMap (fun i => match i with
    | .read t => (r.2.lookup t).map Fetch.val
    | .write t => (r.2.lookup t).map Fetch.val
    | .tryRead t => some (Fetch.opt (r.2.lookup t))
    | .tryWrite t => some (Fetch.opt (r.2.lookup t))
    | .tagged t => (tags.lookup t).map Fetch.tag)

/-- An iteration item: the entity and its fetched tuple (`iter_entities`). -/
abbrev Item := Entity × List Fetch

/-- Modelled from the spec: the chunks selected by a query, with their chunk
set's canonical tag values, in iteration order — archetype pass, then
chunk-set pass, then chunk pass (spec §4.4 steps 1–3). -/
def matchedChunks (q : Query) (w : World) : List (List (TagTypeId × Val) × Chunk) :=
  w.archetypes.flatMap fun a =>
    if archMatches q a then
      a.chunkSets.flatMap fun s =>
        (s.chunks.filter (chunkMatches q)).map (fun c => (s.tags, c))
    else []

/-- The items one matched chunk yields: one tuple per row, in row order
(spec §4.4 step 4). -/
def chunkItems (v : View) (p : List (TagTypeId × Val) × Chunk) : List Item :=
  p.2.rows.map (fun r => (r.1, fetchRow v p.1 r))

/-- Modelled from the spec: the sequence of items a sequential iteration of
the query yields (`iter_entities`): the rows of every matched chunk.  Values
are fetched from the pre-pass state of each row (a row is read before it is
written, and rows are disjoint). -/
def Query.iterList (q : Query) (w : World) : List Item :=
  (matchedChunks q w).flatMap (chunkItems q.view)

/-- Apply the pass's writes to one row: every column the view has write
access to is replaced via `upd`. -/
def updateRow (wts : List ComponentTypeId)
    (upd : Entity → ComponentTypeId → Val → Val) (r : Row) : Row :=
  (r.1, r.2.map (fun p => (p.1, if p.1 ∈ wts then upd r.1 p.1 p.2 else p.2)))

/-- Modelled from the spec: the effect of one iteration pass on a chunk.  A
matched chunk has every write-column rewritten through `upd` and stamped with
the pass's tick — even a column that was not actually modified is stamped,
because write access is granted at column granularity (spec §3 "Version
counters"). -/
def Chunk.applyPass (q : Query) (upd : Entity → ComponentTypeId → Val → Val)
    (newTick : Nat) (c : Chunk) : Chunk :=
  if chunkMatches q c then
    ⟨c.rows.map (updateRow q.view.writeTypes upd),
     c.versions.map (fun p =>
       (p.1, if p.1 ∈ q.view.writeTypes then newTick else p.2))⟩
  else c

/-- Modelled from the spec: the effect of one iteration pass on the world.  A
pass holding any write access advances the world tick; the writes stamp the
new tick onto the touched columns of the matched chunks (spec §3 "Version
counters", §4.4). -/
def World.applyPass (q : Query) (upd : Entity → ComponentTypeId → Val → Val)
    (w : World) : World :=
  let newTick := if q.view.hasWrite then w.worldTick + 1 else w.worldTick
  ⟨w.archetypes.map (fun a =>
      if archMatches q a then
        { a with chunkSets := a.chunkSets.map (fun s =>
            { s with chunks := s.chunks.map (Chunk.applyPass q upd newTick) }) }
      else a),
    newTick, w.nextEntity⟩

/-- Modelled from the spec: one full pass of a query (spec §4.4 steps 1–5):
yield the items of every matched chunk, apply the writes, and advance the
`changed` filter's `last_seen` to the world tick observed at the start of the
pass (spec §4.4 step 5). -/
def Query.runPass (q : Query) (upd : Entity → ComponentTypeId → Val → Val)
    (w : World) : List Item × World × Query :=
  (q.iterList w, w.applyPass q upd,
    { q with changedF := q.changedF.map (fun p => (p.1, w.worldTick)) })

/-- The identity write function: a pass that only reads through its view
(still stamping the write columns it has access to). -/
def idUpd : Entity → ComponentTypeId → Val → Val := fun _ _ v => v

/-! ## Storage accessors and invariants -/

/-- Every storage row of the world, in storage order. -/
def World.allRows (w : World) : List Row :=
  w.archetypes.flatMap fun a => a.chunkSets.flatMap fun s => s.chunks.flatMap (·.rows)

/-- Every storage row with its chunk set's canonical tag values. -/
def World.taggedRows (w : World) : List (List (TagTypeId × Val) × Row) :=
  w.archetypes.flatMap fun a => a.chunkSets.flatMap fun s =>
    s.chunks.flatMap fun c => c.rows.map (fun r => (s.tags, r))

/-- Modelled from the spec: `World::get_component` (spec §4.3) — locate the
entity's row and read its component of type `t`; absence is `none`. -/
def World.get_component (w : World) (t : ComponentTypeId) (e : Entity) :
    Option Val :=
  (w.allRows.find? (fun r => r.1 == e)).bind (fun r => r.2.lookup t)

/-- Modelled from the spec: `World::get_tag` (spec §4.3) — the canonical tag
value of the entity's chunk set. -/
def World.get_tag (w : World) (t : TagTypeId) (e : Entity) : Option Val :=
  (w.taggedRows.find? (fun p => p.2.1 == e)).bind (fun p => p.1.lookup t)

/-- Invariant I1 (spec §3): every live entity has exactly one storage
location — the entity ids found in storage are distinct. -/
def World.wf (w : World) : Prop :=
  (w.allRows.map Prod.fst).Nodup

instance (w : World) : Decidable w.wf := by
  unfold World.wf; infer_instance

/-- Invariant I6 (spec §3): stamped column versions never exceed the current
world tick. -/
def World.ticksBounded (w : World) : Prop :=
  ∀ a ∈ w.archetypes, ∀ s ∈ a.chunkSets, ∀ c ∈ s.chunks,
    ∀ p ∈ c.versions, p.2 ≤ w.worldTick

instance (w : World) : Decidable w.ticksBounded := by
  unfold World.ticksBounded; infer_instance

/-! ## Serialization (spec §4.5; `examples/serde.rs`)

The `WorldSerializer` implementation is taken from `examples/serde.rs`; the
facade that walks the world and drives it (`legion::ser::serializable_world`)
is not in the source tree and is modelled from spec §4.5. -/

/-- From `serde.rs` (`SerializeImpl::can_serialize_component`): a component
type is serializable iff its type id is in the registration map. -/
def can_serialize_component (reg : List Nat) (t : ComponentTypeId) : Bool :=
  t ∈ reg

/-- From `serde.rs` (`SerializeImpl::can_serialize_tag`): a tag type is
serializable iff its type id is in the registration map (the same map as for
components — both lookups key on the `TypeId`). -/
def can_serialize_tag (reg : List Nat) (t : TagTypeId) : Bool :=
  t ∈ reg

/-- From `serde.rs` (`SerializeImpl::serialize_components`): look the type up
in the registration map and serialize the column through the registered
thunk; `none` models the `panic!` branch taken for an unregistered type. -/
def serialize_components (reg : List Nat) (t : ComponentTypeId)
    (column : List Val) : Option (List Val) :=
  if t ∈ reg then some column else none

/-- From `serde.rs` (`SerializeImpl::serialize_tags`): look the type up in
the registration map and serialize the tag value; `none` models the `panic!`
branch taken for an unregistered type. -/
def serialize_tags (reg : List Nat) (t : TagTypeId) (tagVal : Val) :
    Option Val :=
  if t ∈ reg then some tagVal else none

/-- The dense column of component type `t` in a chunk (the
`ComponentResourceSet` slice handed to `serialize_components`). -/
def Chunk.column (c : Chunk) (t : ComponentTypeId) : List Val :=
  c.rows.filterMap (fun r => r.2.lookup t)

/-- The serialized form of one chunk: its entity ids and one dense column per
emitted component type. -/
structure ChunkOut where
  entities : List Entity
  columns : List (ComponentTypeId × List Val)
  deriving Repr, DecidableEq

/-- The serialized form of one chunk set: its emitted tag values and its
chunks. -/
structure ChunkSetOut where
  tags : List (TagTypeId × Val)
  chunks : List ChunkOut
  deriving Repr, DecidableEq

/-- The serialized form of one archetype: the filtered description
(`serialize_archetype_description` in `serde.rs` keeps exactly the registered
tag and component types) and the chunk data. -/
structure ArchetypeOut where
  tagTypes : List TagTypeId
  componentTypes : List ComponentTypeId
  chunkSets : List ChunkSetOut
  deriving Repr, DecidableEq

/-- Modelled from the spec: emission of one archetype (spec §4.5).  The
facade consults `can_serialize_*` for every type; an archetype whose visible
component and tag intersections are both empty is omitted entirely (`none`).
Otherwise the unserializable columns are omitted while every row (and its
entity id) is still emitted, each visible column going through
`serialize_components` / `serialize_tags`. -/
def serializeArchetype (reg : List Nat) (a : Archetype) : Option ArchetypeOut :=
  let visTags := a.tagTypes.filter (can_serialize_tag reg)
  let visComps := a.componentTypes.filter (can_serialize_component reg)
  if visTags.isEmpty && visComps.isEmpty then none
  else some
    { tagTypes := visTags
      componentTypes := visComps
      chunkSets := a.chunkSets.map (fun s =>
        { tags := visTags.filterMap (fun t =>
            (s.tags.lookup t).bind (fun v =>
              (serialize_tags reg t v).map (fun sv => (t, sv))))
          chunks := s.chunks.map (fun c =>
            { entities := c.rows.map Prod.fst
              columns := visComps.filterMap (fun t =>
                (serialize_components reg t (c.column t)).map
                  (fun col => (t, col))) }) }) }

/-- Modelled from the spec: serialization of a world (spec §4.5) — walk the
archetypes in order, emitting each through `serializeArchetype`. -/
def serializeWorld (reg : List Nat) (w : World) : List ArchetypeOut :=
  w.archetypes.filterMap (serializeArchetype reg)

/-- The arguments of every `serialize_components` invocation the facade
performs: for each emitted archetype, for each chunk, one call per visible
component type (spec §4.5: "one call per component type per chunk"). -/
def componentCalls (reg : List Nat) (w : World) :
    List (ComponentTypeId × List Val) :=
  w.archetypes.flatMap fun a =>
    let visTags := a.tagTypes.filter (can_serialize_tag reg)
    let visComps := a.componentTypes.filter (can_serialize_component reg)
    if visTags.isEmpty && visComps.isEmpty then []
    else a.chunkSets.flatMap fun s => s.chunks.flatMap fun c =>
      visComps.map (fun t => (t, c.column t))

/-- The arguments of every `serialize_tags` invocation the facade performs:
for each emitted archetype, one call per visible tag type per chunk set
(spec §4.5: "one call per tag type per chunk set"). -/
def tagCalls (reg : List Nat) (w : World) : List (TagTypeId × Val) :=
  w.archetypes.flatMap fun a =>
    let visTags := a.tagTypes.filter (can_serialize_tag reg)
    let visComps := a.componentTypes.filter (can_serialize_component reg)
    if visTags.isEmpty && visComps.isEmpty then []
    else a.chunkSets.flatMap fun s =>
      visTags.filterMap (fun t => (s.tags.lookup t).map (fun v => (t, v)))

/-! ## The scenario worlds of the shipped tests and example

Type-id conventions for the concrete scenarios: `Pos = 0`, `Rot = 1`,
`Vel = 2`, `Unregistered = 3` (component ids), `Static = 10`, `Model = 11`
(tag ids); `f32` tuples are embedded as integer-scaled triples. -/

/-- The world of `query_api.rs`'s two-entity scenarios: entities
`(Pos(1,2,3), Rot(0.1,0.2,0.3))` and `(Pos(4,5,6), Rot(0.4,0.5,0.6))` under
tags `(Static, Model(5))`. -/
def testWorld : World :=
  (World.empty.insert [(10, []), (11, [5])] [0, 1]
    [[[10, 20, 30], [1, 2, 3]], [[40, 50, 60], [4, 5, 6]]]).1

/-- The world of `query_try_read_entity_data` /
`query_try_write_entity_data`: `(Pos(1,2,3),)` then
`(Pos(4,5,6), Rot(0.4,0.5,0.6))`, no tags. -/
def tryWorld : World :=
  ((World.empty.insert [] [0] [[[10, 20, 30]]]).1.insert [] [0, 1]
    [[[40, 50, 60], [4, 5, 6]]]).1

/-- The world of `examples/serde.rs`: chunk sets `{Pos,Vel}`,
`{Pos,Unregistered}` and `{Unregistered}`, the latter two under tag
`Unregistered(4,5,6)`. -/
def serdeWorld : World :=
  (((World.empty.insert [] [0, 2]
      [[[10, 20, 30], [10, 20, 30]], [[10, 20, 30], [10, 20, 30]],
        [[10, 20, 30], [10, 20, 30]], [[10, 20, 30], [10, 20, 30]]]).1.insert
    [(3, [40, 50, 60])] [0, 3]
      [[[10, 20, 30], [40, 50, 60]], [[10, 20, 30], [40, 50, 60]],
        [[10, 20, 30], [40, 50, 60]], [[10, 20, 30], [40, 50, 60]]]).1.insert
    [(3, [40, 50, 60])] [3]
      [[[40, 50, 60]], [[40, 50, 60]]]).1

/-- The registration map of `serde.rs`: only `Pos` and `Vel`. -/
def serdeReg : List Nat := [0, 2]

/-! ## Proof devices -/

/-- Every storage row annotated with whether the query's filter passes select
its chunk, and with its chunk set's canonical tags: the flattened view of one
pass, used to relate iteration, writes and the storage accessors. -/
def annotatedRows (q : Query) (w : World) :
    List (Bool × List (TagTypeId × Val) × Row) :=
  w.archetypes.flatMap fun a => a.chunkSets.flatMap fun s =>
    s.chunks.flatMap fun c =>
      c.rows.map (fun r => (archMatches q a && chunkMatches q c, s.tags, r))

/-- Modelled from the spec: `par_for_each` (spec §4.4 "Parallel iteration") —
the matched chunks are fanned out to a work-stealing pool and the callback
runs per row; `order` is the order in which the pool happens to process the
chunks, which the spec leaves unspecified. -/
def parForEachItems (q : Query)
    (order : List (List (TagTypeId × Val) × Chunk)) : List Item :=
  order.flatMap (chunkItems q.view)

/-- The entities stored under archetypes carrying tag type `t`, in storage
order. -/
def World.entitiesWithTag (w : World) (t : TagTypeId) : List Entity :=
  w.archetypes.flatMap fun a =>
    if t ∈ a.tagTypes then
      (a.chunkSets.flatMap fun s => s.chunks.flatMap (·.rows)).map Prod.fst
    else []

/-- Invariant (spec §3 I3/§4.3): every chunk set carries a canonical value
for each of its archetype's tag types. -/
def World.tagsComplete (w : World) : Prop :=
  ∀ a ∈ w.archetypes, ∀ s ∈ a.chunkSets, ∀ t ∈ a.tagTypes,
    (s.tags.lookup t).isSome

instance (w : World) : Decidable w.tagsComplete := by
  unfold World.tagsComplete; infer_instance

/-! ## General lemmas -/

theorem lookup_map_assoc {β : Type} (f : Nat → β → β) (l : List (Nat × β))
    (t : Nat) :
    (l.map (fun p => (p.1, f p.1 p.2))).lookup t = (l.lookup t).map (f t) := by
  induction l with
  | nil => rfl
  | cons p rest ih =>
    obtain ⟨k, v⟩ := p
    simp only [List.map_cons, List.lookup_cons]
    cases h : t == k
    · simpa [h] using ih
    · have hk := eq_of_beq h
      subst hk
      simp [h]

theorem mem_of_lookup {β : Type} {l : List (Nat × β)} {t : Nat} {v : β}
    (h : l.lookup t = some v) : (t, v) ∈ l := by
  rcases List.lookup_eq_some_iff.mp h with ⟨l₁, l₂, rfl, -⟩
  simp

theorem find?_key_nodup {α : Type} (key : α → Nat) {l : List α}
    (hnd : (l.map key).Nodup) {x : α} (hx : x ∈ l) :
    l.find? (fun y => key y == key x) = some x := by
  induction l with
  | nil => cases hx
  | cons a rest ih =>
    simp only [List.map_cons, List.nodup_cons] at hnd
    rcases List.mem_cons.mp hx with rfl | hx'
    · simp
    · have hne : key a ≠ key x := fun h =>
        hnd.1 (h ▸ List.mem_map_of_mem key hx')
      rw [List.find?_cons_of_neg _ (by simp [hne]), ih hnd.2 hx']

theorem updateRow_fst (wts : List ComponentTypeId)
    (upd : Entity → ComponentTypeId → Val → Val) (r : Row) :
    (updateRow wts upd r).1 = r.1 := rfl

theorem updateRow_lookup (wts : List ComponentTypeId)
    (upd : Entity → ComponentTypeId → Val → Val) (r : Row)
    (t : ComponentTypeId) :
    (updateRow wts upd r).2.lookup t
      = (r.2.lookup t).map (fun v => if t ∈ wts then upd r.1 t v else v) :=
  lookup_map_assoc (fun k v => if k ∈ wts then upd r.1 k v else v) r.2 t

/-! ## Flattening one pass to the annotated row list -/

theorem taggedRows_eq_annotated (q : Query) (w : World) :
    (annotatedRows q w).map (fun x => x.2) = w.taggedRows := by
  simp [annotatedRows, World.taggedRows, List.map_flatMap, List.map_map,
    Function.comp_def]

theorem allRows_eq_annotated (q : Query) (w : World) :
    (annotatedRows q w).map (fun x => x.2.2) = w.allRows := by
  simp [annotatedRows, World.allRows, List.map_flatMap, List.map_map,
    Function.comp_def]

theorem chunkFlat_true (v : View) (tags : List (TagTypeId × Val)) (c : Chunk) :
    ((c.rows.map (fun r => ((true : Bool), tags, r))).filter (·.1)).map
        (fun x => (x.2.2.1, fetchRow v x.2.1 x.2.2))
      = chunkItems v (tags, c) := by
  simp [List.filter_map, Function.comp_def, chunkItems, List.map_map]

theorem chunkFlat_false (v : View) (tags : List (TagTypeId × Val)) (c : Chunk) :
    ((c.rows.map (fun r => ((false : Bool), tags, r))).filter (·.1)).map
        (fun x => (x.2.2.1, fetchRow v x.2.1 x.2.2))
      = [] := by
  simp [List.filter_map, Function.comp_def]

theorem csFlat_true (q : Query) (tags : List (TagTypeId × Val))
    (cs : List Chunk) :
    (cs.flatMap fun c =>
        ((c.rows.map (fun r => (chunkMatches q c, tags, r))).filter (·.1)).map
          (fun x => (x.2.2.1, fetchRow q.view x.2.1 x.2.2)))
      = ((cs.filter (chunkMatches q)).map (fun c => (tags, c))).flatMap
          (chunkItems q.view) := by
  induction cs with
  | nil => rfl
  | cons c cs ih =>
    simp only [List.flatMap_cons, ih, List.filter_cons]
    cases hc : chunkMatches q c
    · simp [hc, chunkFlat_false]
    · simp [hc, chunkFlat_true]

theorem csFlat_false (q : Query) (tags : List (TagTypeId × Val))
    (cs : List Chunk) :
    (cs.flatMap fun c =>
        ((c.rows.map (fun r => ((false : Bool), tags, r))).filter (·.1)).map
          (fun x => (x.2.2.1, fetchRow q.view x.2.1 x.2.2)))
      = [] :=
  List.flatMap_eq_nil_iff.mpr fun c _ => chunkFlat_false q.view tags c

theorem iterList_eq_annotated (q : Query) (w : World) :
    q.iterList w
      = ((annotatedRows q w).filter (·.1)).map
          (fun x => (x.2.2.1, fetchRow q.view x.2.1 x.2.2)) := by
  simp only [Query.iterList, matchedChunks, annotatedRows, List.flatMap_assoc,
    List.filter_flatMap, List.map_flatMap]
  refine List.flatMap_congr (fun a _ => ?_)
  cases ha : archMatches q a
  · simp only [ha, Bool.false_and, if_false, List.flatMap_nil]
    exact Eq.symm
      (List.flatMap_eq_nil_iff.mpr fun s _ => csFlat_false q s.tags s.chunks)
  · simp only [ha, Bool.true_and, if_true, List.flatMap_assoc]
    exact List.flatMap_congr fun s _ => (csFlat_true q s.tags s.chunks).symm

/-! ## The effect of a pass on the storage -/

theorem applyPass_taggedRows (q : Query)
    (upd : Entity → ComponentTypeId → Val → Val) (w : World) :
    (w.applyPass q upd).taggedRows
      = (annotatedRows q w).map (fun x =>
          (x.2.1,
            if x.1 then updateRow q.view.writeTypes upd x.2.2 else x.2.2)) := by
  simp only [World.applyPass, World.taggedRows, annotatedRows,
    List.flatMap_map, List.map_flatMap, Function.comp_def]
  refine List.flatMap_congr (fun a _ => ?_)
  cases ha : archMatches q a
  · simp [Function.comp_def]
  · rw [if_pos rfl]
    simp only [List.flatMap_map, Function.comp_def, Bool.true_and]
    refine List.flatMap_congr (fun s _ => ?_)
    refine List.flatMap_congr (fun c _ => ?_)
    cases hc : chunkMatches q c
    · simp [Chunk.applyPass, hc]
    · simp [Chunk.applyPass, hc, List.map_map, Function.comp_def]

theorem lookup_map_const {β : Type} {n : β} {l : List Nat} {t : Nat}
    (ht : t ∈ l) : (l.map (fun k => (k, n))).lookup t = some n := by
  induction l with
  | nil => cases ht
  | cons k rest ih =>
    simp only [List.map_cons, List.lookup_cons]
    cases h : t == k
    · exact ih (by
        rcases List.mem_cons.mp ht with rfl | h' <;>
          simp_all)
    · rfl

theorem hasWrite_of_mem {v : View} {t : ComponentTypeId}
    (ht : t ∈ v.writeTypes) : v.hasWrite = true := by
  unfold View.hasWrite
  cases hv : v.writeTypes
  · rw [hv] at ht; cases ht
  · simp [hv]

/-- A chunk that a `changed<T>` pass with write access to `T` selected is
selected again by the immediately following pass (its column was stamped past
the snapshot), and an unselected chunk stays unselected (its versions are at
most the snapshot). -/
theorem chunkMatches_applyPass (q : Query)
    (upd : Entity → ComponentTypeId → Val → Val) (t ls T : Nat)
    (hq : q.changedF = some (t, ls)) (ht : t ∈ q.view.writeTypes)
    (c : Chunk) (hb : ∀ p ∈ c.versions, p.2 ≤ T) :
    chunkMatches ⟨q.view, some (t, T)⟩ (Chunk.applyPass q upd (T + 1) c)
      = chunkMatches q c := by
  cases hc : chunkMatches q c
  · rw [Chunk.applyPass, if_neg (by simp [hc])]
    have hvb : c.versionOf t ≤ T := by
      unfold Chunk.versionOf
      cases hl : c.versions.lookup t with
      | none => simp
      | some v => simpa using hb _ (mem_of_lookup hl)
    simp only [chunkMatches]
    exact decide_eq_false (by omega)
  · rw [Chunk.applyPass, if_pos (by simp [hc])]
    have hm : ls < c.versionOf t := by
      have h' := hc
      simp only [chunkMatches, hq] at h'
      exact of_decide_eq_true h'
    obtain ⟨v0, hv0⟩ : ∃ v0, c.versions.lookup t = some v0 := by
      unfold Chunk.versionOf at hm
      cases hl : c.versions.lookup t with
      | none =>
        rw [hl] at hm
        exact absurd hm (by simp)
      | some v => exact ⟨v, rfl⟩
    have hnew : (Chunk.mk (c.rows.map (updateRow q.view.writeTypes upd))
        (c.versions.map (fun p =>
          (p.1, if p.1 ∈ q.view.writeTypes then T + 1 else p.2)))).versionOf t
        = T + 1 := by
      unfold Chunk.versionOf
      rw [lookup_map_assoc
        (fun k v => if k ∈ q.view.writeTypes then T + 1 else v) c.versions t,
        hv0]
      simp [ht]
    simp only [chunkMatches, hnew]
    exact decide_eq_true (by omega)

/-- The annotated row list after a `changed<T>`-filtered write pass: the
selection flags are unchanged (for the follow-up query whose `last_seen` is
the pre-pass tick), and exactly the selected rows are rewritten. -/
theorem annotatedRows_applyPass (q : Query)
    (upd : Entity → ComponentTypeId → Val → Val) (w : World) (t ls : Nat)
    (hq : q.changedF = some (t, ls)) (ht : t ∈ q.view.writeTypes)
    (hb : w.ticksBounded) :
    annotatedRows ⟨q.view, some (t, w.worldTick)⟩ (w.applyPass q upd)
      = (annotatedRows q w).map (fun x =>
          (x.1, x.2.1,
            if x.1 then updateRow q.view.writeTypes upd x.2.2 else x.2.2)) := by
  have hw : q.view.hasWrite = true := hasWrite_of_mem ht
  have hw' : (if q.view.hasWrite then w.worldTick + 1 else w.worldTick)
      = w.worldTick + 1 := by simp [hw]
  simp only [World.applyPass, hw', annotatedRows, List.flatMap_map,
    List.map_flatMap, Function.comp_def]
  refine List.flatMap_congr (fun a haw => ?_)
  cases ha : archMatches q a
  · have ha' : archMatches ⟨q.view, some (t, w.worldTick)⟩ a = false := ha
    rw [if_neg (by simp)]
    simp [ha', Function.comp_def]
  · have ha' : archMatches ⟨q.view, some (t, w.worldTick)⟩
        (Archetype.mk a.componentTypes a.tagTypes
          (a.chunkSets.map (fun s =>
            ChunkSet.mk s.tags
              (s.chunks.map (Chunk.applyPass q upd (w.worldTick + 1))))))
        = true := ha
    rw [if_pos rfl]
    simp only [ha', Bool.true_and, List.flatMap_map, Function.comp_def]
    refine List.flatMap_congr (fun s hsw => ?_)
    refine List.flatMap_congr (fun c hcw => ?_)
    have hbc : ∀ p ∈ c.versions, p.2 ≤ w.worldTick := fun p hp =>
      hb a haw s hsw c hcw p hp
    rw [chunkMatches_applyPass q upd t ls w.worldTick hq ht c hbc]
    cases hc : chunkMatches q c
    · rw [Chunk.applyPass, if_neg (by simp [hc])]
      simp [hc]
    · rw [Chunk.applyPass, if_pos (by simp [hc])]
      simp [hc, List.map_map, Function.comp_def]

/-- A pass whose view holds no write access leaves a chunk untouched. -/
theorem applyPass_chunk_no_write (q : Query)
    (upd : Entity → ComponentTypeId → Val → Val) (n : Nat) (c : Chunk)
    (h : q.view.writeTypes = []) : Chunk.applyPass q upd n c = c := by
  have hrow : ∀ r : Row, updateRow [] upd r = r := fun r => by
    simp [updateRow]
  unfold Chunk.applyPass
  cases hc : chunkMatches q c
  · simp
  · rw [if_pos rfl, h, List.map_id'' hrow c.rows,
      List.map_id'' (fun p => by simp) c.versions]

/-- A pass whose view holds no write access leaves the world untouched
(spec §5: read-only iteration performs no writes and advances no versions). -/
theorem applyPass_no_write (q : Query)
    (upd : Entity → ComponentTypeId → Val → Val) (w : World)
    (h : q.view.hasWrite = false) : w.applyPass q upd = w := by
  have hwt : q.view.writeTypes = [] := by
    unfold View.hasWrite at h
    cases hv : q.view.writeTypes
    · rfl
    · rw [hv] at h; simp at h
  have hw' : (if q.view.hasWrite then w.worldTick + 1 else w.worldTick)
      = w.worldTick := by simp [h]
  simp only [World.applyPass, hw']
  have hchunks : ∀ cs : List Chunk,
      cs.map (Chunk.applyPass q upd w.worldTick) = cs := fun cs =>
    List.map_id''
      (fun c => applyPass_chunk_no_write q upd w.worldTick c hwt) cs
  have hsets : ∀ ss : List ChunkSet,
      ss.map (fun s => ChunkSet.mk s.tags
        (s.chunks.map (Chunk.applyPass q upd w.worldTick))) = ss := fun ss =>
    List.map_id'' (fun s => by rw [hchunks s.chunks]) ss
  have harchs : ∀ al : List Archetype,
      al.map (fun a => if archMatches q a then Archetype.mk a.componentTypes
        a.tagTypes (a.chunkSets.map (fun s => ChunkSet.mk s.tags
          (s.chunks.map (Chunk.applyPass q upd w.worldTick)))) else a)
        = al := fun al =>
    List.map_id'' (fun a => by
      cases ha : archMatches q a
      · simp
      · rw [if_pos rfl, hsets a.chunkSets]) al
  rw [harchs w.archetypes]

/-- A `changed<T>` filter whose `last_seen` equals the current world tick
selects nothing: every stamped version is at most the tick (I6). -/
theorem iterList_stale (q : Query) (w : World) (t : Nat)
    (hq : q.changedF = some (t, w.worldTick)) (hb : w.ticksBounded) :
    q.iterList w = [] := by
  rw [iterList_eq_annotated]
  suffices h : (annotatedRows q w).filter (·.1) = [] by rw [h]; rfl
  rw [List.filter_eq_nil_iff]
  intro x hx
  simp only [annotatedRows, List.mem_flatMap, List.mem_map] at hx
  obtain ⟨a, ha, s, hs, c, hc, r, hr, rfl⟩ := hx
  have hvb : c.versionOf t ≤ w.worldTick := by
    unfold Chunk.versionOf
    cases hl : c.versions.lookup t with
    | none => simp
    | some v => simpa using hb a ha s hs c hc _ (mem_of_lookup hl)
  have hcm : chunkMatches q c = false := by
    simp only [chunkMatches, hq]
    exact decide_eq_false (by omega)
  simp [hcm]

/-- `insert` into the empty world: one archetype, one chunk set, one chunk,
rows numbered from zero, columns stamped with tick 1. -/
theorem insert_empty (tags : List (TagTypeId × Val))
    (ctypes : List ComponentTypeId) (vals : List (List Val)) :
    World.empty.insert tags ctypes vals
      = (⟨[⟨ctypes, tags.map Prod.fst,
            [⟨tags, [⟨((List.range vals.length).zip vals).map
                        (fun p => (p.1, ctypes.zip p.2)),
                      ctypes.map (fun t => (t, 1))⟩]⟩]⟩], 1, vals.length⟩,
          List.range vals.length) := by
  simp [World.insert, World.empty]

/-! ## Locating entities in the flattened storage -/

theorem find?_pointwise {α : Type} {p q : α → Bool} (l : List α)
    (h : ∀ a ∈ l, p a = q a) : l.find? p = l.find? q := by
  induction l with
  | nil => rfl
  | cons a rest ih =>
    cases hp : p a
    · rw [List.find?_cons_of_neg _ (by simp [hp]),
        List.find?_cons_of_neg _ (by simp [← h a (by simp), hp]),
        ih (fun x hx => h x (by simp [hx]))]
    · rw [List.find?_cons_of_pos _ hp,
        List.find?_cons_of_pos _ (by rw [← h a (by simp)]; exact hp)]

theorem allRows_eq_tagged (w : World) :
    w.taggedRows.map (fun p => p.2) = w.allRows := by
  have h1 := taggedRows_eq_annotated (Query.plain []) w
  have h2 := allRows_eq_annotated (Query.plain []) w
  rw [← h1, ← h2, List.map_map]
  rfl

/-- Locating an entity that a pass yielded: with distinct entity ids (I1),
`get_component` reads exactly the row the pass annotated. -/
theorem get_component_annotated (q : Query) (w : World) (t : ComponentTypeId)
    (hwf : w.wf) {x : Bool × List (TagTypeId × Val) × Row}
    (hx : x ∈ annotatedRows q w) :
    w.get_component t x.2.2.1 = x.2.2.2.lookup t := by
  have hnd : ((annotatedRows q w).map (fun y => y.2.2.1)).Nodup := by
    have h := hwf
    rw [World.wf, ← allRows_eq_annotated q w, List.map_map] at h
    simpa [Function.comp_def] using h
  unfold World.get_component
  rw [← allRows_eq_annotated q w, List.find?_map]
  simp only [Function.comp_def]
  rw [find?_key_nodup (fun y => y.2.2.1) hnd hx]
  rfl

/-- Locating an entity's chunk-set tags: with distinct entity ids,
`get_tag` reads exactly the chunk set the pass annotated. -/
theorem get_tag_annotated (q : Query) (w : World) (t : TagTypeId)
    (hwf : w.wf) {x : Bool × List (TagTypeId × Val) × Row}
    (hx : x ∈ annotatedRows q w) :
    w.get_tag t x.2.2.1 = x.2.1.lookup t := by
  have hnd : ((annotatedRows q w).map (fun y => y.2.2.1)).Nodup := by
    have h := hwf
    rw [World.wf, ← allRows_eq_annotated q w, List.map_map] at h
    simpa [Function.comp_def] using h
  unfold World.get_tag
  rw [← taggedRows_eq_annotated q w, List.find?_map]
  simp only [Function.comp_def]
  rw [find?_key_nodup (fun y => y.2.2.1) hnd hx]
  rfl

/-! ## Claim theorems -/

/-- C1 (counterexample): in the scenario of `query_on_changed_self_changes`
(two rows inserted, `Write<Pos>` filtered by `changed<Pos>`, every row
written during the first pass), re-iterating with no external mutation does
NOT yield 0 rows — the claim's "the second pass yields 0 rows" is false on
this input. -/
theorem c1_second_pass_not_empty :
    (let r1 := (Query.changed [VItem.write 0] 0).runPass
        (fun _ _ _ => [1, 1, 1]) testWorld
     (r1.2.2.runPass idUpd r1.2.1).1.length ≠ 0) := by
  decide

/-- C1 (amended): if a `Write<Pos>` query filtered by `changed<Pos>` is
iterated once over the two-row world, writing every row during that pass,
then re-iterated with no external mutation in between, the second pass
yields all `n = 2` rows again, each now holding the value written during the
first pass (self-writes during a pass DO re-trigger the filter on the next
pass — exactly what the shipped test asserts). -/
theorem c1_second_pass_yields_all_rows :
    (let r1 := (Query.changed [VItem.write 0] 0).runPass
        (fun _ _ _ => [1, 1, 1]) testWorld
     r1.1.length = 2 ∧
       (r1.2.2.runPass idUpd r1.2.1).1
         = [(0, [Fetch.val [1, 1, 1]]), (1, [Fetch.val [1, 1, 1]])]) := by
  decide

/-- C2: for every query carrying a `changed<T>` filter with write access to
`T`, completing a pass advances the filter's `last_seen` exactly to the world
tick observed at the start of that pass; consequently the writes performed by
that pass (stamped one past the snapshot) make the immediately following pass
of the same query yield exactly the same entities again. -/
theorem changed_snapshot_retrigger (w : World) (q : Query)
    (upd upd2 : Entity → ComponentTypeId → Val → Val) (t ls : Nat)
    (hq : q.changedF = some (t, ls)) (ht : t ∈ q.view.writeTypes)
    (hb : w.ticksBounded) :
    ((q.runPass upd w).2.2.changedF = some (t, w.worldTick)) ∧
      (((q.runPass upd w).2.2.runPass upd2 (q.runPass upd w).2.1).1.map
          Prod.fst
        = (q.runPass upd w).1.map Prod.fst) := by
  constructor
  · simp [Query.runPass, hq]
  · have hquery : (q.runPass upd w).2.2 = ⟨q.view, some (t, w.worldTick)⟩ := by
      simp [Query.runPass, hq]
    rw [hquery]
    show (Query.iterList ⟨q.view, some (t, w.worldTick)⟩
        (w.applyPass q upd)).map Prod.fst = (q.iterList w).map Prod.fst
    rw [iterList_eq_annotated, iterList_eq_annotated,
      annotatedRows_applyPass q upd w t ls hq ht hb, List.filter_map]
    simp only [List.map_map, Function.comp_def]
    rw [List.filter_congr (fun x _ => rfl)]
    refine List.map_congr_left (fun x _ => ?_)
    cases hx1 : x.1 <;> simp [hx1, updateRow]

/-- C2 witness: the general theorem applied to the two-row test world with
the `Write<Pos>` + `changed<Pos>` query of the shipped test. -/
theorem changed_snapshot_retrigger_witness :
    ((Query.changed [VItem.write 0] 0).changedF = some (0, 0)
        ∧ 0 ∈ View.writeTypes [VItem.write 0]
        ∧ testWorld.ticksBounded)
      ∧ ((((Query.changed [VItem.write 0] 0).runPass
            (fun _ _ _ => [2, 2, 2]) testWorld).2.2.changedF
          = some (0, testWorld.worldTick))
        ∧ ((((Query.changed [VItem.write 0] 0).runPass
              (fun _ _ _ => [2, 2, 2]) testWorld).2.2.runPass idUpd
              (((Query.changed [VItem.write 0] 0).runPass
                (fun _ _ _ => [2, 2, 2]) testWorld)).2.1).1.map Prod.fst
          = (((Query.changed [VItem.write 0] 0).runPass
              (fun _ _ _ => [2, 2, 2]) testWorld)).1.map Prod.fst)) :=
  ⟨⟨rfl, by decide, by decide⟩,
    changed_snapshot_retrigger testWorld (Query.changed [VItem.write 0] 0)
      (fun _ _ _ => [2, 2, 2]) idUpd 0 0 rfl (by decide) (by decide)⟩

/-- After a read-only pass of a fresh `changed<T>` query, a second pass over
the untouched world yields nothing: the filter's `last_seen` was advanced to
the world tick and every stamped version is at most that tick. -/
theorem second_pass_empty (v : View) (t : ComponentTypeId) (w : World)
    (hro : v.hasWrite = false) (hb : w.ticksBounded) :
    (((Query.changed v t).runPass idUpd w).2.2.runPass idUpd
      (((Query.changed v t).runPass idUpd w)).2.1).1 = [] := by
  have h21 : ((Query.changed v t).runPass idUpd w).2.1 = w :=
    applyPass_no_write _ idUpd w hro
  have h22 : ((Query.changed v t).runPass idUpd w).2.2
      = ⟨v, some (t, w.worldTick)⟩ := by
    simp [Query.runPass, Query.changed]
  rw [h21, h22]
  exact iterList_stale ⟨v, some (t, w.worldTick)⟩ w t rfl hb

/-- C3: over a world holding exactly the `n` freshly inserted matching rows,
a read-only query filtered by `changed<T>` yields `n` rows on the first pass
and 0 rows on the second pass, when no `Write`/`TryWrite` occurs in
between. -/
theorem changed_read_only_two_passes (v : View) (t : ComponentTypeId)
    (tags : List (TagTypeId × Val)) (ctypes : List ComponentTypeId)
    (vals : List (List Val))
    (hro : v.hasWrite = false)
    (hm : ∀ x ∈ v.mandatoryComponents, x ∈ ctypes)
    (htg : ∀ x ∈ v.taggedTypes, x ∈ tags.map Prod.fst)
    (ht : t ∈ ctypes) :
    (((Query.changed v t).runPass idUpd
        (World.empty.insert tags ctypes vals).1).1.length = vals.length)
      ∧ ((((Query.changed v t).runPass idUpd
            (World.empty.insert tags ctypes vals).1).2.2.runPass idUpd
            (((Query.changed v t).runPass idUpd
              (World.empty.insert tags ctypes vals).1)).2.1).1 = []) := by
  have hbd : (World.empty.insert tags ctypes vals).1.ticksBounded := by
    rw [insert_empty]
    intro a ha s hs c hc p hp
    simp only [List.mem_singleton] at ha
    subst ha
    simp only [List.mem_singleton] at hs
    subst hs
    simp only [List.mem_singleton] at hc
    subst hc
    simp only [List.mem_map] at hp
    obtain ⟨k, -, rfl⟩ := hp
    exact Nat.le_refl 1
  refine ⟨?_, second_pass_empty v t _ hro hbd⟩
  rw [insert_empty]
  have harch : archMatches (Query.changed v t)
      ⟨ctypes, tags.map Prod.fst,
        [⟨tags, [⟨((List.range vals.length).zip vals).map
                    (fun p => (p.1, ctypes.zip p.2)),
                  ctypes.map (fun t => (t, 1))⟩]⟩]⟩ = true := by
    simp only [archMatches, Bool.and_eq_true, List.all_eq_true]
    exact ⟨fun x hx => by simpa using hm x hx,
      fun x hx => by simpa using htg x hx⟩
  have hchunk : chunkMatches (Query.changed v t)
      ⟨((List.range vals.length).zip vals).map
          (fun p => (p.1, ctypes.zip p.2)),
        ctypes.map (fun t => (t, 1))⟩ = true := by
    simp [chunkMatches, Query.changed, Chunk.versionOf, lookup_map_const ht]
  simp [Query.runPass, Query.iterList, matchedChunks, harch, hchunk,
    chunkItems]

/-- C3 witness: the general theorem applied to a one-row world with a
`Read<Pos>` + `changed<Pos>` query. -/
theorem changed_read_only_two_passes_witness :
    (View.hasWrite [VItem.read 0] = false
        ∧ (∀ x ∈ View.mandatoryComponents [VItem.read 0], x ∈ [0])
        ∧ (∀ x ∈ View.taggedTypes [VItem.read 0],
            x ∈ ([] : List (TagTypeId × Val)).map Prod.fst)
        ∧ 0 ∈ [0])
      ∧ ((((Query.changed [VItem.read 0] 0).runPass idUpd
            (World.empty.insert [] [0] [[[7]]]).1).1.length = 1)
        ∧ ((((Query.changed [VItem.read 0] 0).runPass idUpd
              (World.empty.insert [] [0] [[[7]]]).1).2.2.runPass idUpd
              (((Query.changed [VItem.read 0] 0).runPass idUpd
                (World.empty.insert [] [0] [[[7]]]).1)).2.1).1 = [])) :=
  ⟨⟨by decide, by decide, by decide, by decide⟩,
    changed_read_only_two_passes [VItem.read 0] 0 [] [0] [[[7]]]
      (by decide) (by decide) (by decide) (by decide)⟩

/-- C7: a `TryRead<T>` query matches archetypes with and without `T`,
yielding one item per stored entity; each item carries `none` when the entity
lacks `T` and the stored value when it has it (it agrees with
`get_component`). -/
theorem tryRead_yields_every_entity (t : ComponentTypeId) (w : World)
    (hwf : w.wf) :
    (((Query.plain [VItem.tryRead t]).runPass idUpd w).1.length
        = w.allRows.length)
      ∧ ∀ x ∈ ((Query.plain [VItem.tryRead t]).runPass idUpd w).1,
          x.2 = [Fetch.opt (w.get_component t x.1)] := by
  have hflag : ∀ x ∈ annotatedRows (Query.plain [VItem.tryRead t]) w,
      x.1 = true := by
    intro x hx
    simp only [annotatedRows, List.mem_flatMap, List.mem_map] at hx
    obtain ⟨a, -, s, -, c, -, r, -, rfl⟩ := hx
    rfl
  have hitems : ((Query.plain [VItem.tryRead t]).runPass idUpd w).1
      = (annotatedRows (Query.plain [VItem.tryRead t]) w).map
          (fun x => (x.2.2.1, fetchRow [VItem.tryRead t] x.2.1 x.2.2)) := by
    show Query.iterList _ w = _
    rw [iterList_eq_annotated, List.filter_eq_self.mpr hflag]
    rfl
  constructor
  · rw [hitems, List.length_map,
      ← allRows_eq_annotated (Query.plain [VItem.tryRead t]) w,
      List.length_map]
  · intro x hx
    rw [hitems] at hx
    simp only [List.mem_map] at hx
    obtain ⟨y, hy, rfl⟩ := hx
    rw [get_component_annotated (Query.plain [VItem.tryRead t]) w t hwf hy]
    rfl

/-- C7 witness: the general theorem applied to the two-entity world of
`query_try_read_entity_data` (`Pos`-only entity plus a `Pos`+`Rot` entity),
together with the scenario facts: two items, exactly one absent, the present
one equal to `Rot(0.4,0.5,0.6)`. -/
theorem tryRead_yields_every_entity_witness :
    tryWorld.wf
      ∧ ((((Query.plain [VItem.tryRead 1]).runPass idUpd tryWorld).1.length
            = tryWorld.allRows.length)
        ∧ ∀ x ∈ ((Query.plain [VItem.tryRead 1]).runPass idUpd tryWorld).1,
            x.2 = [Fetch.opt (tryWorld.get_component 1 x.1)])
      ∧ (((Query.plain [VItem.tryRead 1]).runPass idUpd tryWorld).1
          = [(0, [Fetch.opt none]), (1, [Fetch.opt (some [4, 5, 6])])]) :=
  ⟨by decide, tryRead_yields_every_entity 1 tryWorld (by decide), by decide⟩

/-- C8: writes performed through an exclusive (`Write`/`TryWrite`) view
during query iteration are persisted in the world's storage: for every
entity the pass yielded, a subsequent `get_component` returns the written
value — `upd` applied to the old one (absent stays absent under
`TryWrite`). -/
theorem write_persisted (w : World) (q : Query)
    (upd : Entity → ComponentTypeId → Val → Val) (t : ComponentTypeId)
    (hwf : w.wf) (ht : t ∈ q.view.writeTypes) :
    ∀ e ∈ (q.runPass upd w).1.map Prod.fst,
      (q.runPass upd w).2.1.get_component t e
        = (w.get_component t e).map (upd e t) := by
  intro e he
  have hx : ∃ x ∈ annotatedRows q w, x.1 = true ∧ x.2.2.1 = e := by
    have h1 : (q.runPass upd w).1 = Query.iterList q w := rfl
    rw [h1, iterList_eq_annotated, List.map_map] at he
    simp only [List.mem_map, List.mem_filter, Function.comp_def] at he
    obtain ⟨x, ⟨hxm, hxf⟩, rfl⟩ := he
    exact ⟨x, hxm, hxf, rfl⟩
  obtain ⟨x, hxmem, hxflag, hxe⟩ := hx
  subst hxe
  have hrows : (q.runPass upd w).2.1.allRows
      = (annotatedRows q w).map (fun y =>
          if y.1 then updateRow q.view.writeTypes upd y.2.2 else y.2.2) := by
    have h1 : (q.runPass upd w).2.1 = w.applyPass q upd := rfl
    rw [h1, ← allRows_eq_tagged (w.applyPass q upd),
      applyPass_taggedRows q upd w, List.map_map]
    rfl
  have hnd : ((annotatedRows q w).map (fun y => y.2.2.1)).Nodup := by
    have h := hwf
    rw [World.wf, ← allRows_eq_annotated q w, List.map_map] at h
    simpa [Function.comp_def] using h
  have hpw : (annotatedRows q w).find? (fun y =>
      (if y.1 then updateRow q.view.writeTypes upd y.2.2 else y.2.2).1
        == x.2.2.1)
      = (annotatedRows q w).find? (fun y => y.2.2.1 == x.2.2.1) :=
    find?_pointwise _ (fun y _ => by cases hy1 : y.1 <;> simp [hy1, updateRow])
  rw [get_component_annotated q w t hwf hxmem]
  show ((q.runPass upd w).2.1.allRows.find?
      (fun r => r.1 == x.2.2.1)).bind (fun r => r.2.lookup t) = _
  rw [hrows, List.find?_map]
  simp only [Function.comp_def]
  rw [hpw, find?_key_nodup (fun y => y.2.2.1) hnd hxmem]
  simp only [Option.map_some', Option.some_bind]
  rw [if_pos hxflag, updateRow_lookup]
  cases hlk : x.2.2.2.lookup t <;> simp [ht]

/-- C8 witness: the general theorem applied to the `TryWrite<Rot>` scenario
of `query_try_write_entity_data`, plus the test's concrete check that the
entity holding `Rot` now reads back `Rot(9,9,9)` (embedded `[90,90,90]`). -/
theorem write_persisted_witness :
    (tryWorld.wf ∧ 1 ∈ View.writeTypes [VItem.tryWrite 1])
      ∧ (∀ e ∈ ((Query.plain [VItem.tryWrite 1]).runPass
            (fun _ _ _ => [90, 90, 90]) tryWorld).1.map Prod.fst,
          ((Query.plain [VItem.tryWrite 1]).runPass
              (fun _ _ _ => [90, 90, 90]) tryWorld).2.1.get_component 1 e
            = (tryWorld.get_component 1 e).map (fun _ => [90, 90, 90]))
      ∧ (((Query.plain [VItem.tryWrite 1]).runPass
            (fun _ _ _ => [90, 90, 90]) tryWorld).2.1.get_component 1 1
          = some [90, 90, 90]) :=
  ⟨⟨by decide, by decide⟩,
    write_persisted tryWorld (Query.plain [VItem.tryWrite 1])
      (fun _ _ _ => [90, 90, 90]) 1 (by decide) (by decide),
    by decide⟩

/-- C9: all entities of a chunk set share the chunk set's single canonical
tag value, and a `Tagged<T>` query yields one item per entity of every
archetype carrying `T` (not one per chunk set), each item holding the
canonical value `get_tag` reports for that entity. -/
theorem tagged_canonical_per_entity (t : TagTypeId) (w : World)
    (hwf : w.wf) (htc : w.tagsComplete) :
    ((((Query.plain [VItem.tagged t]).runPass idUpd w).1.map Prod.fst)
        = w.entitiesWithTag t)
      ∧ ∀ x ∈ ((Query.plain [VItem.tagged t]).runPass idUpd w).1,
          ∃ v, x.2 = [Fetch.tag v] ∧ w.get_tag t x.1 = some v := by
  constructor
  · show (Query.iterList _ w).map Prod.fst = _
    simp only [Query.iterList, matchedChunks, World.entitiesWithTag,
      List.flatMap_assoc, List.map_flatMap]
    refine List.flatMap_congr (fun a _ => ?_)
    have harcheq : archMatches (Query.plain [VItem.tagged t]) a
        = decide (t ∈ a.tagTypes) := by
      simp [archMatches, Query.plain, View.mandatoryComponents,
        View.taggedTypes]
    have hcm : chunkMatches (Query.plain [VItem.tagged t])
        = fun _ => true := rfl
    by_cases hta : t ∈ a.tagTypes
    · rw [if_pos (by simp [harcheq, hta]), if_pos hta]
      simp only [hcm, List.filter_true, List.flatMap_assoc, List.map_flatMap,
        List.flatMap_map, Function.comp_def, chunkItems, List.map_map]
    · rw [if_neg (by simp [harcheq, hta]), if_neg hta]
      simp
  · intro x hx
    have h1 : ((Query.plain [VItem.tagged t]).runPass idUpd w).1
        = Query.iterList (Query.plain [VItem.tagged t]) w := rfl
    rw [h1, iterList_eq_annotated] at hx
    simp only [List.mem_map, List.mem_filter] at hx
    obtain ⟨y, ⟨hym, hyf⟩, rfl⟩ := hx
    have hym' := hym
    simp only [annotatedRows, List.mem_flatMap, List.mem_map] at hym
    obtain ⟨a, ha, s, hs, c, hc, r, hr, rfl⟩ := hym
    have hta : t ∈ a.tagTypes := by
      have h2 := hyf
      simp only [Bool.and_eq_true] at h2
      have h3 := h2.1
      simp only [archMatches, Bool.and_eq_true, List.all_eq_true,
        decide_eq_true_eq] at h3
      exact h3.2 t (by simp [Query.plain, View.taggedTypes])
    obtain ⟨v, hv⟩ := Option.isSome_iff_exists.mp (htc a ha s hs t hta)
    refine ⟨v, ?_, ?_⟩
    · simp [fetchRow, Query.plain, hv]
    · rw [get_tag_annotated (Query.plain [VItem.tagged t]) w t hwf hym']
      exact hv

/-- C9 witness: the general theorem applied to the two-entity tagged world of
`query_read_shared_data` (`Static = 10`), plus the scenario facts: two items,
both holding the canonical `Static` value. -/
theorem tagged_canonical_per_entity_witness :
    (testWorld.wf ∧ testWorld.tagsComplete)
      ∧ (((((Query.plain [VItem.tagged 10]).runPass idUpd testWorld).1.map
              Prod.fst) = testWorld.entitiesWithTag 10)
        ∧ ∀ x ∈ ((Query.plain [VItem.tagged 10]).runPass idUpd testWorld).1,
            ∃ v, x.2 = [Fetch.tag v] ∧ testWorld.get_tag 10 x.1 = some v)
      ∧ (((Query.plain [VItem.tagged 10]).runPass idUpd testWorld).1
          = [(0, [Fetch.tag []]), (1, [Fetch.tag []])]) :=
  ⟨⟨by decide, by decide⟩,
    tagged_canonical_per_entity 10 testWorld (by decide) (by decide),
    by decide⟩

/-- C5: `par_for_each`, which processes the matched chunks in whatever order
the pool completes them, invokes its callback on exactly the same multiset of
(entity, fetched tuple) items as the sequential iteration of the same
query. -/
theorem par_for_each_same_multiset (q : Query) (w : World)
    (order : List (List (TagTypeId × Val) × Chunk))
    (h : order.Perm (matchedChunks q w)) :
    (parForEachItems q order : Multiset Item)
      = (q.iterList w : Multiset Item) :=
  Multiset.coe_eq_coe.mpr (h.flatMap_right (chunkItems q.view))

/-- C5 witness: the theorem applied to the two-chunk world with the pool
completing the chunks in reverse order. -/
theorem par_for_each_same_multiset_witness :
    ((matchedChunks (Query.plain [VItem.read 0]) tryWorld).reverse.Perm
        (matchedChunks (Query.plain [VItem.read 0]) tryWorld))
      ∧ ((parForEachItems (Query.plain [VItem.read 0])
            ((matchedChunks (Query.plain [VItem.read 0]) tryWorld).reverse)
          : Multiset Item)
        = ((Query.plain [VItem.read 0]).iterList tryWorld : Multiset Item)) :=
  ⟨by decide,
    par_for_each_same_multiset (Query.plain [VItem.read 0]) tryWorld
      ((matchedChunks (Query.plain [VItem.read 0]) tryWorld).reverse)
      (by decide)⟩

theorem lookup_zip_isSome {P : Nat} : ∀ (ks : List Nat) (vs : List Val),
    P ∈ ks → vs.length = ks.length →
    ((ks.zip vs).lookup P).isSome = true := by
  intro ks
  induction ks with
  | nil => intro vs h; cases h
  | cons k ks ih =>
    intro vs hP hlen
    cases vs with
    | nil => simp at hlen
    | cons u us =>
      simp only [List.zip_cons_cons, List.lookup_cons]
      cases h : P == k
      · apply ih us
        · rcases List.mem_cons.mp hP with rfl | h'
          · simp at h
          · exact h'
        · simpa using hlen
      · rfl

/-- C6: `insert` returns one entity id per input tuple, in insertion order
(ids 0..n-1 from the fresh world); immediately afterwards a `Read<P>` query
yields exactly one (entity, value) item per inserted entity, in order, each
value being the `P`-component inserted for that entity. -/
theorem insert_ids_and_read_query (tags : List (TagTypeId × Val))
    (ctypes : List ComponentTypeId) (vals : List (List Val))
    (P : ComponentTypeId) (hP : P ∈ ctypes)
    (hlen : ∀ tu ∈ vals, tu.length = ctypes.length) :
    ((World.empty.insert tags ctypes vals).2 = List.range vals.length)
      ∧ (((Query.plain [VItem.read P]).runPass idUpd
            (World.empty.insert tags ctypes vals).1).1
          = ((List.range vals.length).zip vals).map
              (fun p => (p.1,
                [Fetch.val (((ctypes.zip p.2).lookup P).getD [])]))) := by
  rw [insert_empty]
  refine ⟨rfl, ?_⟩
  show Query.iterList _ _ = _
  have hcm : chunkMatches (Query.plain [VItem.read P]) = fun _ => true := rfl
  have harch : archMatches (Query.plain [VItem.read P])
      (Archetype.mk ctypes (tags.map Prod.fst)
        [ChunkSet.mk tags [Chunk.mk
          (((List.range vals.length).zip vals).map
            (fun p => (p.1, ctypes.zip p.2)))
          (ctypes.map (fun t => (t, 1)))]]) = true := by
    simp [archMatches, Query.plain, View.mandatoryComponents,
      View.taggedTypes, hP]
  simp only [Query.iterList, matchedChunks, List.flatMap_cons,
    List.flatMap_nil, harch, if_true, hcm, List.filter_true, List.map_cons,
    List.map_nil, List.append_nil, chunkItems, List.map_map,
    Function.comp_def]
  refine List.map_congr_left (fun p hp => ?_)
  obtain ⟨i, tu⟩ := p
  have htu : tu ∈ vals := (List.of_mem_zip hp).2
  obtain ⟨v, hv⟩ := Option.isSome_iff_exists.mp
    (lookup_zip_isSome ctypes tu hP (hlen tu htu))
  simp [fetchRow, Query.plain, hv]

/-- C6 witness: the general theorem applied to the two-entity insert of
`query_read_entity_data` (tags `(Static, Model(5))`, tuples
`(Pos, Rot)`), reading `Pos`. -/
theorem insert_ids_and_read_query_witness :
    (0 ∈ [0, 1]
        ∧ (∀ tu ∈ ([[[10, 20, 30], [1, 2, 3]], [[40, 50, 60], [4, 5, 6]]]
            : List (List Val)), tu.length = ([0, 1] : List Nat).length))
      ∧ (((World.empty.insert [(10, []), (11, [5])] [0, 1]
            [[[10, 20, 30], [1, 2, 3]], [[40, 50, 60], [4, 5, 6]]]).2
          = List.range 2)
        ∧ (((Query.plain [VItem.read 0]).runPass idUpd
              (World.empty.insert [(10, []), (11, [5])] [0, 1]
                [[[10, 20, 30], [1, 2, 3]], [[40, 50, 60], [4, 5, 6]]]).1).1
            = ((List.range 2).zip
                  [[[10, 20, 30], [1, 2, 3]], [[40, 50, 60], [4, 5, 6]]]).map
                (fun p => (p.1,
                  [Fetch.val ((((
                    [0, 1] : List Nat).zip p.2).lookup 0).getD [])])))) :=
  ⟨⟨by decide, by decide⟩,
    insert_ids_and_read_query [(10, []), (11, [5])] [0, 1]
      [[[10, 20, 30], [1, 2, 3]], [[40, 50, 60], [4, 5, 6]]] 0
      (by decide) (by decide)⟩

theorem mem_zip_map_self {α β : Type} (f : α → β) (l : List α) {pr : β × α}
    (h : pr ∈ (l.map f).zip l) : pr.1 = f pr.2 := by
  induction l with
  | nil => cases h
  | cons a rest ih =>
    simp only [List.map_cons, List.zip_cons_cons, List.mem_cons] at h
    rcases h with rfl | h
    · rfl
    · exact ih h

theorem filterMap_serialize_columns (reg : List Nat) (vis : List Nat)
    (h : ∀ u ∈ vis, u ∈ reg) (c : Chunk) :
    vis.filterMap (fun u =>
        (serialize_components reg u (c.column u)).map (fun col => (u, col)))
      = vis.map (fun u => (u, c.column u)) := by
  induction vis with
  | nil => rfl
  | cons u rest ih =>
    rw [List.filterMap_cons, List.map_cons]
    rw [show serialize_components reg u (c.column u) = some (c.column u)
      from if_pos (h u (by simp))]
    rw [ih (fun x hx => h x (by simp [hx]))]
    rfl

/-- C4: an archetype is emitted by serialization iff its component-type or
tag-type intersection with the serializable set is non-empty; within an
emitted archetype the unserializable columns are omitted while every row and
its entity id are still emitted (each kept column is the dense source
column); in the `serde.rs` scenario exactly two of the three archetypes are
emitted. -/
theorem serialization_archetype_policy :
    (∀ (reg : List Nat) (a : Archetype),
        (serializeArchetype reg a).isSome = true
          ↔ ((∃ u ∈ a.componentTypes, can_serialize_component reg u = true)
            ∨ (∃ u ∈ a.tagTypes, can_serialize_tag reg u = true)))
      ∧ (∀ (reg : List Nat) (a : Archetype) (out : ArchetypeOut),
          serializeArchetype reg a = some out →
            out.componentTypes
                = a.componentTypes.filter (can_serialize_component reg)
              ∧ out.tagTypes = a.tagTypes.filter (can_serialize_tag reg)
              ∧ out.chunkSets.length = a.chunkSets.length
              ∧ ∀ pr ∈ out.chunkSets.zip a.chunkSets,
                  pr.1.chunks.length = pr.2.chunks.length
                    ∧ ∀ pc ∈ pr.1.chunks.zip pr.2.chunks,
                        pc.1.entities = pc.2.rows.map Prod.fst
                          ∧ pc.1.columns
                              = (a.componentTypes.filter
                                  (can_serialize_component reg)).map
                                  (fun u => (u, pc.2.column u)))
      ∧ ((serializeWorld serdeReg serdeWorld).length = 2) := by
  refine ⟨?_, ?_, by decide⟩
  · intro reg a
    unfold serializeArchetype
    by_cases hcond : ((a.tagTypes.filter (can_serialize_tag reg)).isEmpty
        && (a.componentTypes.filter (can_serialize_component reg)).isEmpty)
        = true
    · rw [if_pos hcond]
      simp only [Bool.and_eq_true, List.isEmpty_iff,
        List.filter_eq_nil_iff] at hcond
      constructor
      · intro h; simp at h
      · rintro (⟨u, hu, hp⟩ | ⟨u, hu, hp⟩)
        · exact absurd hp (hcond.2 u hu)
        · exact absurd hp (hcond.1 u hu)
    · rw [if_neg hcond]
      simp only [Bool.and_eq_true, List.isEmpty_iff,
        List.filter_eq_nil_iff, not_and_or] at hcond
      simp only [Option.isSome_some, true_iff]
      rcases hcond with h | h
      · right
        push_neg at h
        obtain ⟨u, hu, hp⟩ := h
        exact ⟨u, hu, by simpa using hp⟩
      · left
        push_neg at h
        obtain ⟨u, hu, hp⟩ := h
        exact ⟨u, hu, by simpa using hp⟩
  · intro reg a out hsome
    unfold serializeArchetype at hsome
    by_cases hcond : ((a.tagTypes.filter (can_serialize_tag reg)).isEmpty
        && (a.componentTypes.filter (can_serialize_component reg)).isEmpty)
        = true
    · rw [if_pos hcond] at hsome
      cases hsome
    · rw [if_neg hcond] at hsome
      obtain rfl := (Option.some.injEq _ _).mp hsome.symm
      refine ⟨rfl, rfl, by simp, ?_⟩
      intro pr hpr
      have hpr1 := mem_zip_map_self _ a.chunkSets hpr
      rw [hpr1]
      refine ⟨by simp, ?_⟩
      intro pc hpc
      have hpc1 := mem_zip_map_self _ pr.2.chunks hpc
      rw [hpc1]
      refine ⟨rfl, ?_⟩
      exact filterMap_serialize_columns reg _
        (fun u hu => by
          have := (List.mem_filter.mp hu).2
          simpa [can_serialize_component] using this) pc.2

/-- C4 witness: the emitted-archetype characterization applied to the
`{Pos, Unregistered}` archetype under the `{Pos, Vel}` registry: the
`Unregistered` column is dropped, the `Pos` column and both rows are kept. -/
theorem serialization_archetype_policy_witness :
    (serializeArchetype serdeReg
        (Archetype.mk [0, 3] [3] [ChunkSet.mk [(3, [9])]
          [Chunk.mk [(5, [(0, [7]), (3, [8])]), (6, [(0, [4]), (3, [2])])]
            [(0, 1), (3, 1)]]])
        = some (ArchetypeOut.mk [] [0] [ChunkSetOut.mk []
            [ChunkOut.mk [5, 6] [(0, [[7], [4]])]]]))
      ∧ ((ArchetypeOut.mk [] [0] [ChunkSetOut.mk []
            [ChunkOut.mk [5, 6] [(0, [[7], [4]])]]]).componentTypes
            = ([0, 3] : List Nat).filter (can_serialize_component serdeReg)
          ∧ (ArchetypeOut.mk [] [0] [ChunkSetOut.mk []
              [ChunkOut.mk [5, 6] [(0, [[7], [4]])]]]).tagTypes
              = ([3] : List Nat).filter (can_serialize_tag serdeReg)
          ∧ (ArchetypeOut.mk [] [0] [ChunkSetOut.mk []
              [ChunkOut.mk [5, 6] [(0, [[7], [4]])]]]).chunkSets.length
              = [ChunkSet.mk [(3, [9])]
                  [Chunk.mk [(5, [(0, [7]), (3, [8])]),
                    (6, [(0, [4]), (3, [2])])] [(0, 1), (3, 1)]]].length
          ∧ ∀ pr ∈ (ArchetypeOut.mk [] [0] [ChunkSetOut.mk []
              [ChunkOut.mk [5, 6] [(0, [[7], [4]])]]]).chunkSets.zip
                [ChunkSet.mk [(3, [9])]
                  [Chunk.mk [(5, [(0, [7]), (3, [8])]),
                    (6, [(0, [4]), (3, [2])])] [(0, 1), (3, 1)]]],
              pr.1.chunks.length = pr.2.chunks.length
                ∧ ∀ pc ∈ pr.1.chunks.zip pr.2.chunks,
                    pc.1.entities = pc.2.rows.map Prod.fst
                      ∧ pc.1.columns
                          = (([0, 3] : List Nat).filter
                              (can_serialize_component serdeReg)).map
                              (fun u => (u, pc.2.column u))) :=
  ⟨by decide,
    serialization_archetype_policy.2.1 serdeReg
      (Archetype.mk [0, 3] [3] [ChunkSet.mk [(3, [9])]
        [Chunk.mk [(5, [(0, [7]), (3, [8])]), (6, [(0, [4]), (3, [2])])]
          [(0, 1), (3, 1)]]])
      (ArchetypeOut.mk [] [0] [ChunkSetOut.mk []
        [ChunkOut.mk [5, 6] [(0, [[7], [4]])]]])
      (by decide)⟩

/-- C10: the serialization facade invokes `serialize_components` and
`serialize_tags` only with type ids for which `can_serialize_component`
(resp. `can_serialize_tag`) holds; under that precondition the example
serializer's panic branches (modelled as `none`) are unreachable. -/
theorem serializer_calls_preregistered :
    (∀ (reg : List Nat) (w : World), ∀ pr ∈ componentCalls reg w,
        can_serialize_component reg pr.1 = true
          ∧ (serialize_components reg pr.1 pr.2).isSome = true)
      ∧ (∀ (reg : List Nat) (w : World), ∀ pr ∈ tagCalls reg w,
          can_serialize_tag reg pr.1 = true
            ∧ (serialize_tags reg pr.1 pr.2).isSome = true) := by
  constructor
  · intro reg w pr hpr
    simp only [componentCalls, List.mem_flatMap] at hpr
    obtain ⟨a, -, hpr⟩ := hpr
    by_cases hcond : ((a.tagTypes.filter (can_serialize_tag reg)).isEmpty
        && (a.componentTypes.filter (can_serialize_component reg)).isEmpty)
        = true
    · rw [if_pos hcond] at hpr
      cases hpr
    · rw [if_neg hcond] at hpr
      simp only [List.mem_flatMap, List.mem_map] at hpr
      obtain ⟨s, -, c, -, u, hu, rfl⟩ := hpr
      have hreg : u ∈ reg := by
        have := (List.mem_filter.mp hu).2
        simpa [can_serialize_component] using this
      exact ⟨by simpa [can_serialize_component] using hreg,
        by simp [serialize_components, hreg]⟩
  · intro reg w pr hpr
    simp only [tagCalls, List.mem_flatMap] at hpr
    obtain ⟨a, -, hpr⟩ := hpr
    by_cases hcond : ((a.tagTypes.filter (can_serialize_tag reg)).isEmpty
        && (a.componentTypes.filter (can_serialize_component reg)).isEmpty)
        = true
    · rw [if_pos hcond] at hpr
      cases hpr
    · rw [if_neg hcond] at hpr
      simp only [List.mem_flatMap, List.mem_filterMap] at hpr
      obtain ⟨s, -, u, hu, hlk⟩ := hpr
      have hreg : u ∈ reg := by
        have := (List.mem_filter.mp hu).2
        simpa [can_serialize_tag] using this
      have hpr1 : pr.1 = u := by
        cases hlk' : s.tags.lookup u with
        | none => rw [hlk'] at hlk; cases hlk
        | some v =>
          rw [hlk'] at hlk
          simp only [Option.map_some', Option.some.injEq] at hlk
          rw [← hlk]
      rw [hpr1]
      exact ⟨by simpa [can_serialize_tag] using hreg,
        by simp [serialize_tags, hreg]⟩

/-- C10 witness: the facade's first `serialize_components` call in the
`serde.rs` scenario — the `Pos` column of the fully serializable archetype —
is registered and does not panic. -/
theorem serializer_calls_preregistered_witness :
    ((0, [[10, 20, 30], [10, 20, 30], [10, 20, 30], [10, 20, 30]])
        ∈ componentCalls serdeReg serdeWorld)
      ∧ (can_serialize_component serdeReg 0 = true
        ∧ (serialize_components serdeReg 0
            [[10, 20, 30], [10, 20, 30], [10, 20, 30],
              [10, 20, 30]]).isSome = true) :=
  ⟨by decide,
    serializer_calls_preregistered.1 serdeReg serdeWorld
      (0, [[10, 20, 30], [10, 20, 30], [10, 20, 30], [10, 20, 30]])
      (by decide)⟩

end Legion
